import Mathlib

/-!
Shallow embedding of the data-fetching and data-shaping layer of the
organization-projects dashboard:

* `Dashboard000` — the dashboard variant whose teams carry embedded project
  lists (`organizationProjectsDashboard` over `withTeamsForUser`);
* `Dashboard001` — the dashboard variant that receives a flat project list
  from `withTeamProjects` and groups it with `getProjectsByTeams`;
* `WithTeamProjectsLoading` — the `withTeamProjects` higher-order component
  variant that owns a `loadingProjects` flag and compares team lists with
  lodash `isEqual`;
* `WithTeamProjectsRef` — the `withTeamProjects.tsx` variant that owns no
  loading flag and compares `prevProps !== this.props` by reference;
* `TeamSectionComp` — the per-team section that fetches its own project list;
* `WithUsersTeams` — the wrapper that fetches the current user's teams.

JavaScript collections are modelled as lists; a JS object with string keys is
an association list with unique keys in insertion order (`JsObject`).
Asynchronous requests are modelled by their outcome: `some data` for a
resolved promise, `none` for a rejected one; a component's `setState`
continuations become pure state-transition functions applied to those
outcomes.
-/

/-- A project summary as delivered by the API: identifier, display data, the
bookmark flag, the `firstEvent` marker (`false` means the project never
ingested an event) and the slugs of the teams it belongs to. -/
structure Project where
  id : Nat
  slug : String
  name : String
  isBookmarked : Bool
  firstEvent : Bool
  teamSlugs : List String
deriving DecidableEq

/-- A team: its slug and the (possibly embedded) list of its projects. -/
structure Team where
  slug : String
  projects : List Project
deriving DecidableEq

/-! ### Lexicographic string order

JavaScript `Array.prototype.sort()` with no comparator sorts strings by their
code units, i.e. lexicographically.  We use the lexicographic order on the
underlying character lists (Mathlib's linear order on `List Char`), which is
kernel-computable on concrete strings. -/

/-- Lexicographic order on strings, via their character lists. -/
def strR (a b : String) : Prop := a.data ≤ b.data

instance : DecidableRel strR := fun a b => inferInstanceAs (Decidable (a.data ≤ b.data))

instance : IsTotal String strR := ⟨fun a b => le_total a.data b.data⟩

instance : IsTrans String strR := ⟨fun _ _ _ => le_trans⟩

/-- `Array.prototype.sort()` on an array of strings: lexicographic sort.
Only the resulting order matters to the dashboard, so a stable insertion sort
stands in for the engine's sort. -/
def sortStrings (l : List String) : List String := List.insertionSort strR l

/-! ### The shared project order

`sortProjects` from `app/utils` is imported by both dashboard variants but its
implementation is not among the sources. -/

/-- The fixed total project order (isBookmarked desc, name asc): a bookmarked
project precedes an unbookmarked one, ties are broken alphabetically. -/
def projR (p q : Project) : Prop :=
  (p.isBookmarked = true ∧ q.isBookmarked = false) ∨
    (p.isBookmarked = q.isBookmarked ∧ strR p.name q.name)

instance : DecidableRel projR := fun _ _ => inferInstanceAs (Decidable (_ ∨ _))

instance : IsTotal Project projR where
  total p q := by
    unfold projR
    rcases hp : p.isBookmarked <;> rcases hq : q.isBookmarked <;>
      rcases le_total p.name.data q.name.data with h | h <;> simp [strR, hp, hq, h]

instance : IsTrans Project projR where
  trans p q u := by
    unfold projR
    rintro (⟨h1, h2⟩ | ⟨h1, h2⟩) (⟨h3, h4⟩ | ⟨h3, h4⟩) <;> simp_all
    exact Trans.trans h2 h4

/-- Modelled from the spec: `sortProjects` (shared utility in `app/utils`,
not among the sources) sorts a project list by the fixed total order
`(isBookmarked desc, name asc)`. -/
def sortProjects (l : List Project) : List Project := List.insertionSort projR l

/-! ### JS objects as association lists -/

namespace JsObject

variable {α : Type}

/-- Setting `obj[k] = v` on a JS object: an existing key keeps its position
and gets the new value, a new key is appended. -/
def setKey (obj : List (String × α)) (k : String) (v : α) : List (String × α) :=
  if obj.any (fun e => e.1 == k) then
    obj.map (fun e => if e.1 == k then (k, v) else e)
  else
    obj ++ [(k, v)]

/-- `Object.fromEntries`: build an object by setting each entry in turn. -/
def fromEntries (l : List (String × α)) : List (String × α) :=
  l.foldl (fun obj kv => setKey obj kv.1 kv.2) []

/-- `Object.keys`. -/
def keys (obj : List (String × α)) : List String := obj.map Prod.fst

/-- Property access `obj[k]`. -/
def lookupKey (obj : List (String × α)) (k : String) : Option α :=
  (obj.find? (fun e => e.1 == k)).map Prod.snd

theorem any_key_iff {obj : List (String × α)} {k : String} :
    (obj.any fun e => e.1 == k) = true ↔ k ∈ keys obj := by
  simp [keys, List.any_eq_true, List.mem_map]

theorem keys_setKey_of_mem {obj : List (String × α)} {k : String} {v : α}
    (h : k ∈ keys obj) : keys (setKey obj k v) = keys obj := by
  unfold setKey
  rw [if_pos (any_key_iff.mpr h)]
  unfold keys
  rw [List.map_map]
  refine List.map_congr_left ?_
  intro e _
  by_cases hc : e.1 = k <;> simp [Function.comp, hc]

theorem keys_setKey_of_not_mem {obj : List (String × α)} {k : String} {v : α}
    (h : k ∉ keys obj) : keys (setKey obj k v) = keys obj ++ [k] := by
  unfold setKey
  rw [if_neg (fun hc => h (any_key_iff.mp hc))]
  simp [keys]

theorem mem_keys_setKey {obj : List (String × α)} {k k' : String} {v : α} :
    k' ∈ keys (setKey obj k v) ↔ k' ∈ keys obj ∨ k' = k := by
  by_cases h : k ∈ keys obj
  · rw [keys_setKey_of_mem h]
    constructor
    · exact Or.inl
    · rintro (hm | rfl)
      · exact hm
      · exact h
  · rw [keys_setKey_of_not_mem h]
    simp

theorem nodup_keys_setKey {obj : List (String × α)} {k : String} {v : α}
    (h : (keys obj).Nodup) : (keys (setKey obj k v)).Nodup := by
  by_cases hk : k ∈ keys obj
  · rwa [keys_setKey_of_mem hk]
  · rw [keys_setKey_of_not_mem hk]
    simp [List.nodup_append, h, hk]

theorem mem_keys_foldl {l : List (String × α)} {acc : List (String × α)} {k : String} :
    k ∈ keys (l.foldl (fun obj kv => setKey obj kv.1 kv.2) acc) ↔
      k ∈ keys acc ∨ k ∈ l.map Prod.fst := by
  induction l generalizing acc with
  | nil => simp
  | cons kv rest ih =>
    simp only [List.foldl_cons, List.map_cons, List.mem_cons]
    rw [ih, mem_keys_setKey]
    tauto

theorem nodup_keys_foldl {l : List (String × α)} {acc : List (String × α)}
    (h : (keys acc).Nodup) :
    (keys (l.foldl (fun obj kv => setKey obj kv.1 kv.2) acc)).Nodup := by
  induction l generalizing acc with
  | nil => exact h
  | cons kv rest ih => exact ih (nodup_keys_setKey h)

theorem mem_keys_fromEntries {l : List (String × α)} {k : String} :
    k ∈ keys (fromEntries l) ↔ k ∈ l.map Prod.fst := by
  unfold fromEntries
  rw [mem_keys_foldl]
  simp [keys]

theorem nodup_keys_fromEntries (l : List (String × α)) :
    (keys (fromEntries l)).Nodup := by
  unfold fromEntries
  exact nodup_keys_foldl (by simp [keys])

theorem foldl_eq_append (l : List (String × α)) : ∀ acc : List (String × α),
    (keys acc ++ l.map Prod.fst).Nodup →
    l.foldl (fun obj kv => setKey obj kv.1 kv.2) acc = acc ++ l := by
  induction l with
  | nil => intro acc h; simp
  | cons kv rest ih =>
    intro acc h
    simp only [List.foldl_cons]
    have hnotin : kv.1 ∉ keys acc := by
      intro hc
      rw [List.nodup_append] at h
      exact h.2.2 hc (by simp)
    have hset : setKey acc kv.1 kv.2 = acc ++ [(kv.1, kv.2)] := by
      have : ∀ v, setKey acc kv.1 v = acc ++ [(kv.1, v)] := fun v => by
        unfold setKey
        rw [if_neg (fun hc => hnotin (any_key_iff.mp hc))]
      exact this kv.2
    rw [hset, ih (acc ++ [(kv.1, kv.2)]) ?_, List.append_assoc]
    · simp
    · have hk : keys (acc ++ [(kv.1, kv.2)]) ++ rest.map Prod.fst =
          keys acc ++ ([kv.1] ++ rest.map Prod.fst) := by
        simp [keys]
      rw [hk]
      simpa using h

/-- When the entry keys are pairwise distinct, `Object.fromEntries` keeps the
entry list as it is. -/
theorem fromEntries_eq_self {l : List (String × α)} (h : (l.map Prod.fst).Nodup) :
    fromEntries l = l := by
  unfold fromEntries
  simpa using foldl_eq_append l [] (by simpa [keys] using h)

end JsObject

/-! ### lodash `_.uniq(list, 'id')` -/

/-- Deduplication by identifier, keeping the first occurrence of each `id`;
`seen` accumulates the identifiers already kept. -/
def uniqByIdAux (seen : List Nat) : List Project → List Project
  | [] => []
  | p :: rest =>
    if p.id ∈ seen then uniqByIdAux seen rest
    else p :: uniqByIdAux (p.id :: seen) rest

/-- lodash `_.uniq(list, 'id')`: keep the first occurrence of each `id`. -/
def uniqById (l : List Project) : List Project := uniqByIdAux [] l

theorem id_not_mem_seen_of_mem_uniqByIdAux {seen : List Nat} {l : List Project}
    {q : Project} (h : q ∈ uniqByIdAux seen l) : q.id ∉ seen := by
  induction l generalizing seen with
  | nil => simp [uniqByIdAux] at h
  | cons p rest ih =>
    unfold uniqByIdAux at h
    split at h
    · exact ih h
    · next hp =>
      rcases List.mem_cons.mp h with rfl | hq
      · exact hp
      · intro hc
        exact ih hq (List.mem_cons_of_mem _ hc)

theorem nodup_id_uniqByIdAux (seen : List Nat) (l : List Project) :
    ((uniqByIdAux seen l).map Project.id).Nodup := by
  induction l generalizing seen with
  | nil => simp [uniqByIdAux]
  | cons p rest ih =>
    unfold uniqByIdAux
    split
    · exact ih seen
    · simp only [List.map_cons, List.nodup_cons]
      refine ⟨?_, ih (p.id :: seen)⟩
      intro hc
      simp only [List.mem_map] at hc
      obtain ⟨q, hq, hqid⟩ := hc
      exact id_not_mem_seen_of_mem_uniqByIdAux hq (by simp [hqid])

theorem mem_id_uniqByIdAux {seen : List Nat} {l : List Project} {p : Project}
    (hp : p ∈ l) (hs : p.id ∉ seen) :
    p.id ∈ (uniqByIdAux seen l).map Project.id := by
  induction l generalizing seen with
  | nil => simp at hp
  | cons u rest ih =>
    unfold uniqByIdAux
    rcases List.mem_cons.mp hp with rfl | hp'
    · rw [if_neg hs]
      simp
    · split
      · exact ih hp' hs
      · by_cases hid : p.id = u.id
        · simp [hid]
        · simp only [List.map_cons, List.mem_cons]
          exact Or.inr (ih hp' (by simp [hs, hid]))

theorem nodup_id_uniqById (l : List Project) :
    ((uniqById l).map Project.id).Nodup := nodup_id_uniqByIdAux [] l

theorem mem_id_uniqById {l : List Project} {p : Project} (hp : p ∈ l) :
    p.id ∈ (uniqById l).map Project.id := mem_id_uniqByIdAux hp (by simp)

/-! ### Shared render pieces -/

/-- `projects.length === 1 && !projects[0].firstEvent`, the resources-panel
condition computed identically by both dashboard variants. -/
def showResources (projects : List Project) : Bool :=
  match projects with
  | [p] => !p.firstEvent
  | _ => false

/-- The per-team project endpoints,
`teams.map(team => `/teams/${organization.slug}/${team.slug}/projects/`)`,
identical in both `withTeamProjects` variants; one network request is issued
per endpoint. -/
def getTeamsProjectEndpoints (orgSlug : String) (teams : List Team) : List String :=
  teams.map fun team => "/teams/" ++ orgSlug ++ "/" ++ team.slug ++ "/projects/"

/-! ### Dashboard variant with embedded team projects (part_000) -/

namespace Dashboard000

/-- `Object.fromEntries(teams.map(teamObj => [teamObj.slug,
sortProjects(teamObj.projects)]))`. -/
def projectsByTeam (teams : List Team) : List (String × List Project) :=
  JsObject.fromEntries
    (teams.map fun teamObj => (teamObj.slug, sortProjects teamObj.projects))

/-- `_.uniq(_.flatten(teams.map(teamObj => teamObj.projects)), 'id')`. -/
def projects (teams : List Team) : List Project :=
  uniqById (teams.map Team.projects).flatten

/-- `Object.keys(projectsByTeam).sort()`. -/
def teamSlugs (teams : List Team) : List String :=
  sortStrings (JsObject.keys (projectsByTeam teams))

/-- `projects.filter(project => project.isBookmarked)`. -/
def favorites (teams : List Team) : List Project :=
  (projects teams).filter fun project => project.isBookmarked

/-- `projects.length === 0 && favorites.length === 0`. -/
def showEmptyMessage (teams : List Team) : Bool :=
  (projects teams).length == 0 && (favorites teams).length == 0

end Dashboard000

/-! ### Dashboard variant over `withTeamProjects` (part_001) -/

namespace Dashboard001

/-- Modelled from the spec: `getProjectsByTeams` (imported from
`./getProjectsByTeams`, not among the sources) returns the mapping from each
team slug to that team's projects taken from the given flat list; when
`isSuperuser` is set every project is attached to every team. -/
def getProjectsByTeams (teams : List Team) (projects : List Project)
    (isSuperuser : Bool) : List (String × List Project) :=
  JsObject.fromEntries (teams.map fun teamObj =>
    (teamObj.slug,
      if isSuperuser then projects
      else projects.filter fun project => teamObj.slug ∈ project.teamSlugs))

/-- `Object.keys(projectsByTeam).sort()`, where `projectsByTeam` comes from
`getProjectsByTeams(teams, sortProjects(projects), isSuperuser)`. -/
def teamSlugs (teams : List Team) (projects : List Project)
    (isSuperuser : Bool) : List String :=
  sortStrings
    (JsObject.keys (getProjectsByTeams teams (sortProjects projects) isSuperuser))

/-- `projects.filter(project => project.isBookmarked)`. -/
def favorites (projects : List Project) : List Project :=
  projects.filter fun project => project.isBookmarked

/-- `teamSlugs.length === 0 && favorites.length === 0`. -/
def showEmptyMessage (teams : List Team) (projects : List Project)
    (isSuperuser : Bool) : Bool :=
  (teamSlugs teams projects isSuperuser).length == 0 &&
    (favorites projects).length == 0

end Dashboard001

/-! ### Lightweight install-prompt banner -/

namespace InstallPromptBanner

/-- `_.uniq(_.flatten(this.props.teams.map(team => team.projects)), 'id')`,
the project list passed to the banner. -/
def projects (teams : List Team) : List Project :=
  uniqById (teams.map Team.projects).flatten

end InstallPromptBanner

/-! ### `withTeamProjects`, loading-flag variant (part_002) -/

namespace WithTeamProjectsLoading

/-- The wrapper's component state: `{ projects, loadingProjects }`. -/
structure State where
  projects : List Project
  loadingProjects : Bool
deriving DecidableEq

/-- `state = { projects: [], loadingProjects: true }`. -/
def initialState : State := { projects := [], loadingProjects := true }

/-- `Promise.all`: resolves with every result when all branches resolve, and
rejects as soon as any branch rejects. -/
def promiseAll {β : Type} : List (Option β) → Option (List β)
  | [] => some []
  | none :: _ => none
  | some x :: rest => (promiseAll rest).map (x :: ·)

/-- `fetchProjects`: sets `loadingProjects` to `true`, and when the promise
list is nonempty joins it with `Promise.all`, whose `then` continuation (the
only installed handler — a rejection of the join is unhandled) flattens the
results and clears the flag.  `outcomes` gives each per-team request's
result. -/
def fetchProjects (orgSlug : String) (teams : List Team)
    (outcomes : List (Option (List Project))) (s : State) : State :=
  let s1 : State := { s with loadingProjects := true }
  if 0 < (getTeamsProjectEndpoints orgSlug teams).length then
    match promiseAll outcomes with
    | some results => { s1 with projects := results.flatten, loadingProjects := false }
    | none => s1
  else s1

/-- `componentDidMount` calls `fetchProjects` iff `!this.props.loadingTeams`. -/
def componentDidMountFetches (loadingTeams : Bool) : Bool := !loadingTeams

/-- `componentDidUpdate` calls `fetchProjects` iff
`!this.props.loadingTeams && !isEqual(prevProps.teams, this.props.teams)`;
lodash `isEqual` is deep structural equality. -/
def componentDidUpdateFetches (loadingTeams : Bool)
    (prevTeams teams : List Team) : Bool :=
  !loadingTeams && !(decide (prevTeams = teams))

/-- The states the wrapper can reach when the injected team list is empty:
the initial state, and the result of any `fetchProjects` call (mount or
update) with zero teams. -/
inductive ReachableNoTeams (orgSlug : String) : State → Prop
  | start : ReachableNoTeams orgSlug initialState
  | fetch (s : State) (outcomes : List (Option (List Project))) :
      ReachableNoTeams orgSlug s →
      ReachableNoTeams orgSlug (fetchProjects orgSlug [] outcomes s)

end WithTeamProjectsLoading

/-! ### `withTeamProjects.tsx`, reference-comparing variant -/

namespace WithTeamProjectsRef

/-- The props object received by the wrapper; `objectId` models the JS object
identity of the props instance (two props objects are `===` iff their
`objectId`s coincide). -/
structure Props where
  objectId : Nat
  orgSlug : String
  teams : List Team
deriving DecidableEq

/-- `componentDidUpdate` calls `fetchProjects` iff `prevProps !== this.props`,
a reference comparison of the whole props objects. -/
def componentDidUpdateFetches (prevProps props : Props) : Bool :=
  !(decide (prevProps.objectId = props.objectId))

/-- The network requests issued by one `componentDidUpdate`: the full
per-team fan-out when the reference check fires, none otherwise. -/
def componentDidUpdateRequests (prevProps props : Props) : List String :=
  if componentDidUpdateFetches prevProps props then
    getTeamsProjectEndpoints props.orgSlug props.teams
  else []

/-- `componentDidMount` calls `fetchProjects` unconditionally, so the
requests issued on mount are the whole fan-out for the mounted props. -/
def componentDidMountRequests (props : Props) : List String :=
  getTeamsProjectEndpoints props.orgSlug props.teams

end WithTeamProjectsRef

/-! ### `TeamSection` (per-team lazy fetch) -/

namespace TeamSectionComp

/-- `state = { loading: true, projects: [] }`. -/
structure State where
  loading : Bool
  projects : List Project
deriving DecidableEq

def initialState : State := { loading := true, projects := [] }

/-- `fetchData`: sets `loading: true`, awaits the request; on success stores
the projects and clears `loading`; the `catch` block only calls
`console.error`, leaving the state untouched. -/
def fetchData (outcome : Option (List Project)) (s : State) : State :=
  let s1 : State := { s with loading := true }
  match outcome with
  | some projects => { s1 with loading := false, projects := projects }
  | none => s1

end TeamSectionComp

/-! ### `withUsersTeams` -/

namespace WithUsersTeams

/-- `state = { teams: [] }`; the wrapper owns no loading flag and no error
slot. -/
structure State where
  teams : List Team
deriving DecidableEq

/-- `fetchTeams`: the request's `then` continuation stores the teams; a
rejection has no handler, so it changes nothing. -/
def fetchTeams (outcome : Option (List Team)) (s : State) : State :=
  match outcome with
  | some data => { teams := data }
  | none => s

end WithUsersTeams

/-! ### Facts about the sorted slug lists -/

theorem sortStrings_sorted (l : List String) : List.Sorted strR (sortStrings l) :=
  List.sorted_insertionSort strR l

theorem mem_sortStrings {l : List String} {x : String} :
    x ∈ sortStrings l ↔ x ∈ l :=
  List.mem_insertionSort strR

theorem sortStrings_nodup {l : List String} (h : l.Nodup) : (sortStrings l).Nodup :=
  (List.perm_insertionSort strR l).nodup_iff.mpr h

theorem keys_map_slug {β : Type} (teams : List Team) (f : Team → β) :
    (teams.map fun teamObj => (teamObj.slug, f teamObj)).map Prod.fst =
      teams.map Team.slug := by
  rw [List.map_map]
  rfl

theorem lookupKey_map_of_nodup {f : Team → List Project} {teams : List Team}
    (h : (teams.map Team.slug).Nodup) {t : Team} (ht : t ∈ teams) :
    JsObject.lookupKey (teams.map fun u => (u.slug, f u)) t.slug = some (f t) := by
  induction teams with
  | nil => simp at ht
  | cons u rest ih =>
    rcases List.mem_cons.mp ht with rfl | ht'
    · simp [JsObject.lookupKey, List.find?]
    · have hne : (u.slug == t.slug) = false := by
        simp only [List.map_cons, List.nodup_cons] at h
        have : t.slug ∈ rest.map Team.slug := List.mem_map_of_mem Team.slug ht'
        simp only [beq_eq_false_iff_ne, ne_eq]
        intro hc
        exact h.1 (hc ▸ this)
      have hrest : (rest.map Team.slug).Nodup := by
        simp only [List.map_cons, List.nodup_cons] at h
        exact h.2
      simp only [JsObject.lookupKey, List.map_cons, List.find?, hne]
      exact ih hrest ht'

theorem mem_teamSlugs_iff {α : Type} {l : List (String × α)} {x : String} :
    x ∈ sortStrings (JsObject.keys (JsObject.fromEntries l)) ↔ x ∈ l.map Prod.fst := by
  rw [mem_sortStrings]
  exact JsObject.mem_keys_fromEntries

/-! ### Concrete fixtures used by witnesses and counterexamples -/

/-- A project that never ingested an event and is not bookmarked. -/
def pFresh : Project := ⟨1, "fresh", "Fresh", false, false, ["alpha"]⟩

/-- Two distinct project records sharing the identifier `1`. -/
def pDupX : Project := ⟨1, "x", "X", false, true, ["alpha"]⟩

/-- Second record with the duplicated identifier `1`. -/
def pDupY : Project := ⟨1, "y", "Y", false, true, ["alpha"]⟩

/-- A team whose embedded list holds the fresh project. -/
def teamAlpha : Team := ⟨"alpha", [pFresh]⟩

/-- A team with no embedded projects. -/
def teamBeta : Team := ⟨"beta", []⟩

/-! ### The claims -/

/-- C1: the claim says that when the fan-out is started and at least one
per-team request rejects while others resolve, `loadingProjects` still
eventually becomes false.  In `fetchProjects` the only handler installed on
the `Promise.all` join is its `then` continuation, so a single rejection
leaves the state untouched: at the failing input (teams `a` and `b`, `a`
resolving with one project, `b` rejecting) the wrapper keeps
`loadingProjects = true` forever and drops team `a`'s results as well. -/
theorem claim1_partial_failure_leaves_loading :
    WithTeamProjectsLoading.fetchProjects "org" [⟨"a", []⟩, ⟨"b", []⟩]
        [some [⟨2, "pa", "PA", false, true, ["a"]⟩], none]
        WithTeamProjectsLoading.initialState =
      { projects := [], loadingProjects := true } := by
  decide

/-- C2: the loading-flag wrapper indeed suppresses the fan-out when the team
list is structurally unchanged (lodash `isEqual`), but the
`withTeamProjects.tsx` variant compares `prevProps !== this.props` by
reference: a props update carrying a structurally equal team list in a fresh
props object re-issues the whole fan-out, contradicting the claim. -/
theorem claim2_reference_compare_refetches :
    (∀ loadingTeams teams,
        WithTeamProjectsLoading.componentDidUpdateFetches loadingTeams teams teams
          = false) ∧
    WithTeamProjectsRef.componentDidUpdateRequests ⟨0, "org", [⟨"a", []⟩]⟩
        ⟨1, "org", [⟨"a", []⟩]⟩ =
      ["/teams/org/a/projects/"] := by
  refine ⟨fun loadingTeams teams => ?_, by decide⟩
  simp [WithTeamProjectsLoading.componentDidUpdateFetches]

/-- C3: the claim says every wrapper or section component reacts to a failed
request by setting an error indicator and clearing its loading flag.
`TeamSection.fetchData`'s catch block only logs: the state (whose type has no
error slot at all) keeps `loading = true`; `withUsersTeams.fetchTeams`
installs no rejection handler whatsoever, so a failure changes nothing. -/
theorem claim3_failed_fetch_keeps_loading :
    (∀ s, TeamSectionComp.fetchData none s = { s with loading := true }) ∧
    (∀ s, WithUsersTeams.fetchTeams none s = s) :=
  ⟨fun _ => rfl, fun _ => rfl⟩

/-- C8: with `loadingTeams = true` the loading-flag wrapper fetches neither
on mount nor on update; and while the team-list dependency of the
reference-comparing variant is still loading its injected `teams` is the
initial empty list, so any mount or update issues zero requests (one request
is issued per team). -/
theorem claim8_no_fetch_while_teams_loading :
    WithTeamProjectsLoading.componentDidMountFetches true = false ∧
    (∀ prevTeams teams,
        WithTeamProjectsLoading.componentDidUpdateFetches true prevTeams teams
          = false) ∧
    (∀ objectId orgSlug,
        WithTeamProjectsRef.componentDidMountRequests ⟨objectId, orgSlug, []⟩ = []) ∧
    (∀ objectId orgSlug prev,
        WithTeamProjectsRef.componentDidUpdateRequests prev ⟨objectId, orgSlug, []⟩
          = []) := by
  refine ⟨rfl, fun _ _ => rfl, fun _ _ => rfl, fun _ _ prev => ?_⟩
  unfold WithTeamProjectsRef.componentDidUpdateRequests
  split <;> rfl

/-- C10: with an empty injected team list `fetchProjects` builds zero
promises, so the `Promise.all` branch is skipped and nothing ever clears
`loadingProjects`: every reachable state of the wrapper keeps
`loadingProjects = true`, and the fan-out consists of zero requests. -/
theorem claim10_empty_teams_loading_forever (orgSlug : String)
    (s : WithTeamProjectsLoading.State)
    (h : WithTeamProjectsLoading.ReachableNoTeams orgSlug s) :
    s.loadingProjects = true ∧ getTeamsProjectEndpoints orgSlug [] = [] := by
  refine ⟨?_, rfl⟩
  induction h with
  | start => rfl
  | fetch s outcomes _ _ => rfl

/-- Witness for C10 at the initial state of the wrapper. -/
theorem claim10_witness :
    WithTeamProjectsLoading.initialState.loadingProjects = true ∧
    getTeamsProjectEndpoints "org" [] = [] :=
  claim10_empty_teams_loading_forever "org" WithTeamProjectsLoading.initialState
    WithTeamProjectsLoading.ReachableNoTeams.start

/-- C5: the flattened "all projects" collection computed by the dashboard
(`_.uniq(_.flatten(...), 'id')`) contains each identifier occurring in the
teams' embedded lists exactly once, and the install-prompt banner computes
the very same collection. -/
theorem claim5_flattened_projects_unique_ids (teams : List Team) (p : Project)
    (hp : p ∈ (teams.map Team.projects).flatten) :
    ((Dashboard000.projects teams).map Project.id).count p.id = 1 ∧
    InstallPromptBanner.projects teams = Dashboard000.projects teams :=
  ⟨List.count_eq_one_of_mem (nodup_id_uniqById _) (mem_id_uniqById hp), rfl⟩

/-- Witness for C5: the same identifier appearing under two teams is counted
once in the deduplicated collection. -/
theorem claim5_witness :
    pDupX ∈ (([⟨"alpha", [pDupX]⟩, ⟨"beta", [⟨1, "x", "X", false, true, ["beta"]⟩]⟩] :
        List Team).map Team.projects).flatten ∧
    (((Dashboard000.projects
          [⟨"alpha", [pDupX]⟩, ⟨"beta", [⟨1, "x", "X", false, true, ["beta"]⟩]⟩]).map
        Project.id).count pDupX.id = 1 ∧
      InstallPromptBanner.projects
          [⟨"alpha", [pDupX]⟩, ⟨"beta", [⟨1, "x", "X", false, true, ["beta"]⟩]⟩] =
        Dashboard000.projects
          [⟨"alpha", [pDupX]⟩, ⟨"beta", [⟨1, "x", "X", false, true, ["beta"]⟩]⟩]) :=
  ⟨by decide,
    claim5_flattened_projects_unique_ids
      [⟨"alpha", [pDupX]⟩, ⟨"beta", [⟨1, "x", "X", false, true, ["beta"]⟩]⟩] pDupX
      (by decide)⟩

/-- C6: with zero teams and no bookmarked project both dashboard variants
decide for the empty-state message, and the project fan-out for zero teams
consists of zero requests. -/
theorem claim6_zero_teams_empty_state (projects : List Project)
    (isSuperuser : Bool) (orgSlug : String)
    (h : ∀ p ∈ projects, p.isBookmarked = false) :
    Dashboard000.showEmptyMessage [] = true ∧
    Dashboard001.showEmptyMessage [] projects isSuperuser = true ∧
    getTeamsProjectEndpoints orgSlug [] = [] := by
  refine ⟨by decide, ?_, rfl⟩
  have hfav : Dashboard001.favorites projects = [] :=
    List.filter_eq_nil_iff.mpr (by intro p hp; simp [h p hp])
  unfold Dashboard001.showEmptyMessage
  rw [hfav]
  rfl

/-- Witness for C6 with an empty project list. -/
theorem claim6_witness :
    (∀ p ∈ ([] : List Project), p.isBookmarked = false) ∧
    (Dashboard000.showEmptyMessage [] = true ∧
      Dashboard001.showEmptyMessage [] [] false = true ∧
      getTeamsProjectEndpoints "org" [] = []) :=
  ⟨by decide, claim6_zero_teams_empty_state [] false "org" (by decide)⟩

/-- C7: when the deduplicated project collection is exactly one project with
no `firstEvent`, both dashboard variants skip the empty state and turn the
resources panel on.  For the `Dashboard001` variant the team list is assumed
nonempty: its projects are the flattened per-team fetch results, and with
zero teams the wrapper never completes loading, so a completed fetch with a
project implies at least one team. -/
theorem claim7_single_fresh_project_resources (teams teams1 : List Team)
    (p q : Project) (isSuperuser : Bool)
    (h000 : Dashboard000.projects teams = [p]) (hp : p.firstEvent = false)
    (h001 : teams1 ≠ []) (hq : q.firstEvent = false) :
    (Dashboard000.showEmptyMessage teams = false ∧
      showResources (Dashboard000.projects teams) = true) ∧
    (Dashboard001.showEmptyMessage teams1 [q] isSuperuser = false ∧
      showResources [q] = true) := by
  refine ⟨⟨?_, ?_⟩, ⟨?_, ?_⟩⟩
  · unfold Dashboard000.showEmptyMessage
    rw [h000]
    rfl
  · rw [h000]
    simp [showResources, hp]
  · obtain ⟨t, rest, rfl⟩ := List.exists_cons_of_ne_nil h001
    have hmem : t.slug ∈ Dashboard001.teamSlugs (t :: rest) [q] isSuperuser := by
      unfold Dashboard001.teamSlugs Dashboard001.getProjectsByTeams
      rw [mem_teamSlugs_iff, keys_map_slug]
      simp
    have hne : Dashboard001.teamSlugs (t :: rest) [q] isSuperuser ≠ [] :=
      List.ne_nil_of_mem hmem
    unfold Dashboard001.showEmptyMessage
    cases hsl : Dashboard001.teamSlugs (t :: rest) [q] isSuperuser with
    | nil => exact absurd hsl hne
    | cons a l => rfl
  · simp [showResources, hq]

/-- Witness for C7 at a single team carrying the single fresh project. -/
theorem claim7_witness :
    (Dashboard000.projects [teamAlpha] = [pFresh] ∧ pFresh.firstEvent = false ∧
      [teamAlpha] ≠ ([] : List Team)) ∧
    ((Dashboard000.showEmptyMessage [teamAlpha] = false ∧
        showResources (Dashboard000.projects [teamAlpha]) = true) ∧
      (Dashboard001.showEmptyMessage [teamAlpha] [pFresh] false = false ∧
        showResources [pFresh] = true)) :=
  ⟨⟨by decide, by decide, by decide⟩,
    claim7_single_fresh_project_resources [teamAlpha] [teamAlpha] pFresh pFresh
      false (by decide) (by decide) (by decide) (by decide)⟩

/-- The sorted key list of any grouping built from one entry per team: it is
lexicographically sorted, duplicate-free, and holds exactly the team slugs. -/
theorem slugs_spec {β : Type} (teams : List Team) (g : Team → β) :
    List.Sorted strR
        (sortStrings (JsObject.keys
          (JsObject.fromEntries (teams.map fun t => (t.slug, g t))))) ∧
    (sortStrings (JsObject.keys
        (JsObject.fromEntries (teams.map fun t => (t.slug, g t))))).Nodup ∧
    (∀ t ∈ teams,
        t.slug ∈ sortStrings (JsObject.keys
          (JsObject.fromEntries (teams.map fun t => (t.slug, g t))))) ∧
    (∀ s ∈ sortStrings (JsObject.keys
          (JsObject.fromEntries (teams.map fun t => (t.slug, g t)))),
        ∃ t ∈ teams, t.slug = s) := by
  refine ⟨sortStrings_sorted _, sortStrings_nodup (JsObject.nodup_keys_fromEntries _),
    ?_, ?_⟩
  · intro t ht
    rw [mem_teamSlugs_iff, keys_map_slug]
    exact List.mem_map_of_mem Team.slug ht
  · intro s hs
    rw [mem_teamSlugs_iff, keys_map_slug] at hs
    obtain ⟨t, ht, rfl⟩ := List.mem_map.mp hs
    exact ⟨t, ht, rfl⟩

/-- C9: in both dashboard variants the rendered `teamSlugs` list is the
grouping's key set sorted lexicographically, contains every team's slug, and
contains nothing else; each key occurs once. -/
theorem claim9_team_sections_sorted_by_slug (teams : List Team)
    (projects : List Project) (isSuperuser : Bool) :
    (List.Sorted strR (Dashboard000.teamSlugs teams) ∧
      (Dashboard000.teamSlugs teams).Nodup ∧
      (∀ t ∈ teams, t.slug ∈ Dashboard000.teamSlugs teams) ∧
      (∀ s ∈ Dashboard000.teamSlugs teams, ∃ t ∈ teams, t.slug = s)) ∧
    (List.Sorted strR (Dashboard001.teamSlugs teams projects isSuperuser) ∧
      (Dashboard001.teamSlugs teams projects isSuperuser).Nodup ∧
      (∀ t ∈ teams, t.slug ∈ Dashboard001.teamSlugs teams projects isSuperuser) ∧
      (∀ s ∈ Dashboard001.teamSlugs teams projects isSuperuser,
          ∃ t ∈ teams, t.slug = s)) :=
  ⟨slugs_spec teams fun t => sortProjects t.projects,
    slugs_spec teams fun t =>
      if isSuperuser then sortProjects projects
      else (sortProjects projects).filter fun project => t.slug ∈ project.teamSlugs⟩

/-- Witness for C9 at two teams listed in reverse-alphabetical order. -/
theorem claim9_witness :
    (List.Sorted strR (Dashboard000.teamSlugs [teamBeta, teamAlpha]) ∧
      (Dashboard000.teamSlugs [teamBeta, teamAlpha]).Nodup ∧
      (∀ t ∈ [teamBeta, teamAlpha],
          t.slug ∈ Dashboard000.teamSlugs [teamBeta, teamAlpha]) ∧
      (∀ s ∈ Dashboard000.teamSlugs [teamBeta, teamAlpha],
          ∃ t ∈ [teamBeta, teamAlpha], t.slug = s)) ∧
    (List.Sorted strR (Dashboard001.teamSlugs [teamBeta, teamAlpha] [pFresh] false) ∧
      (Dashboard001.teamSlugs [teamBeta, teamAlpha] [pFresh] false).Nodup ∧
      (∀ t ∈ [teamBeta, teamAlpha],
          t.slug ∈ Dashboard001.teamSlugs [teamBeta, teamAlpha] [pFresh] false) ∧
      (∀ s ∈ Dashboard001.teamSlugs [teamBeta, teamAlpha] [pFresh] false,
          ∃ t ∈ [teamBeta, teamAlpha], t.slug = s)) :=
  claim9_team_sections_sorted_by_slug [teamBeta, teamAlpha] [pFresh] false

/-- C4 counterexample: the grouping performs no per-team deduplication — a
team whose embedded list repeats an identifier keeps both records, so "no
repeated project identifiers" fails at this input. -/
theorem claim4_counterexample :
    ¬ ∀ kv ∈ Dashboard000.projectsByTeam [⟨"alpha", [pDupX, pDupY]⟩],
        ((kv.2.map Project.id).Nodup) := by
  decide

/-- C4 (amended): for a team list with pairwise distinct slugs the grouping
has exactly one key per team slug, and each team's key maps to that team's
embedded project list sorted `(isBookmarked desc, name asc)` — a permutation
of the embedded list, with duplicate identifiers preserved. -/
theorem claim4_grouping_sorted_not_deduped (teams : List Team)
    (h : (teams.map Team.slug).Nodup) :
    (JsObject.keys (Dashboard000.projectsByTeam teams)).Nodup ∧
    (∀ t ∈ teams, t.slug ∈ JsObject.keys (Dashboard000.projectsByTeam teams)) ∧
    (∀ k ∈ JsObject.keys (Dashboard000.projectsByTeam teams),
        ∃ t ∈ teams, t.slug = k) ∧
    (∀ t ∈ teams,
        JsObject.lookupKey (Dashboard000.projectsByTeam teams) t.slug =
          some (sortProjects t.projects)) ∧
    (∀ t ∈ teams,
        List.Perm (sortProjects t.projects) t.projects ∧
          List.Sorted projR (sortProjects t.projects)) := by
  have heq : Dashboard000.projectsByTeam teams =
      teams.map fun teamObj => (teamObj.slug, sortProjects teamObj.projects) := by
    unfold Dashboard000.projectsByTeam
    refine JsObject.fromEntries_eq_self ?_
    rw [keys_map_slug]
    exact h
  refine ⟨?_, ?_, ?_, ?_, ?_⟩
  · rw [heq]
    unfold JsObject.keys
    rw [keys_map_slug]
    exact h
  · intro t ht
    rw [heq]
    unfold JsObject.keys
    rw [keys_map_slug]
    exact List.mem_map_of_mem Team.slug ht
  · intro k hk
    rw [heq] at hk
    unfold JsObject.keys at hk
    rw [keys_map_slug] at hk
    obtain ⟨t, ht, rfl⟩ := List.mem_map.mp hk
    exact ⟨t, ht, rfl⟩
  · intro t ht
    rw [heq]
    exact lookupKey_map_of_nodup h ht
  · intro t _
    exact ⟨List.perm_insertionSort projR t.projects,
      List.sorted_insertionSort projR t.projects⟩

/-- Witness for C4 (amended) at two teams with distinct slugs. -/
theorem claim4_witness :
    ([teamAlpha, teamBeta].map Team.slug).Nodup ∧
    ((JsObject.keys (Dashboard000.projectsByTeam [teamAlpha, teamBeta])).Nodup ∧
      (∀ t ∈ [teamAlpha, teamBeta],
          t.slug ∈ JsObject.keys (Dashboard000.projectsByTeam [teamAlpha, teamBeta])) ∧
      (∀ k ∈ JsObject.keys (Dashboard000.projectsByTeam [teamAlpha, teamBeta]),
          ∃ t ∈ [teamAlpha, teamBeta], t.slug = k) ∧
      (∀ t ∈ [teamAlpha, teamBeta],
          JsObject.lookupKey (Dashboard000.projectsByTeam [teamAlpha, teamBeta])
              t.slug =
            some (sortProjects t.projects)) ∧
      (∀ t ∈ [teamAlpha, teamBeta],
          List.Perm (sortProjects t.projects) t.projects ∧
            List.Sorted projR (sortProjects t.projects))) :=
  ⟨by decide, claim4_grouping_sorted_not_deduped [teamAlpha, teamBeta] (by decide)⟩
